import Mathlib

/-!
Shallow embedding of the SciFin repository's stochastic-process generators
(`timeseries/randomseries.py`) and market simulation (`marketdata/simuldata.py`).

Numeric values are modelled over `ℚ`.  The Gaussian random source is injected:
each generator takes the raw standard draws `eps : ℕ → ℚ` and scales them by
`sigma`, mirroring `np.random.normal(loc=0., scale=sigma, size=T)`.
Fallible Python behaviour (assert failures, uncaught exceptions) is modelled by
`Except SimError`.
-/

/-- Error outcomes of the Python code: `parameterMismatch` models a failed
`assert` on the length invariants; `zeroDivisionError` models Python's
`ZeroDivisionError` raised by float division by zero; `negativeShareCount`
models the `Exception` raised in `create_market_shares`; `unboundLocal` models
the `UnboundLocalError` raised when `date_series` is referenced without having
been assigned; `unrecognizedOption` is the error the spec expects for an
out-of-set `date_type` (the code constructs but never raises it). -/
inductive SimError where
  | parameterMismatch
  | zeroDivisionError
  | negativeShareCount
  | unboundLocal
  | unrecognizedOption
deriving DecidableEq, Repr

namespace SciFin

/-! ### timeseries/randomseries.py -/

/-- One iteration `t` of the AR generation loop (lines 43-45):
`x[t] = cst + a[t]` then `for p in range(P): x[t] += coeffs[p] * x[t-p-1]`.
Each `+=` is a read-modify-write of cell `t` of the list. -/
def ARstep (cst : ℚ) (coeffs : List ℚ) (a : ℕ → ℚ) (x : List ℚ) (t : ℕ) : List ℚ :=
  (List.range coeffs.length).foldl
    (fun x p => x.set t (x.getD t 0 + coeffs.getD p 0 * x.getD (t - p - 1) 0))
    (x.set t (cst + a t))

/-- The AR series construction (lines 39-45): `x = [0.]*T`, seed the first
`P = len(start_values)` cells from `start_values`, then run the loop for
`t in range(P, T)`. -/
def ARbuild (T : ℕ) (start_values : List ℚ) (cst : ℚ) (coeffs : List ℚ)
    (a : ℕ → ℚ) : List ℚ :=
  (List.range' start_values.length (T - start_values.length)).foldl
    (fun x t => ARstep cst coeffs a x t)
    ((List.range start_values.length).foldl
      (fun x t => x.set t (start_values.getD t 0)) (List.replicate T 0))

/-- `AutoRegressive` (lines 18-54).  The two `assert` statements become
`parameterMismatch` errors.  After the series is built, the code computes
`E = cst / (1 - sum(coeffs))`; when `sum(coeffs) = 1` this float division by
zero raises `ZeroDivisionError`, so the call fails and returns nothing. -/
def AutoRegressive (T : ℕ) (start_values : List ℚ) (cst : ℚ) (order : ℕ)
    (coeffs : List ℚ) (sigma : ℚ) (eps : ℕ → ℚ) : Except SimError (List ℚ) :=
  if coeffs.length = order then
    if start_values.length = order then
      if 1 - coeffs.sum = 0 then Except.error SimError.zeroDivisionError
      else Except.ok (ARbuild T start_values cst coeffs (fun t => sigma * eps t))
    else Except.error SimError.parameterMismatch
  else Except.error SimError.parameterMismatch

/-- `RandomWalk` (lines 58-81): `x[0] = start_value`;
`for t in range(1,T): x[t] = x[t-1] + a[t]`. -/
def RandomWalk (T : ℕ) (start_value : ℚ) (sigma : ℚ) (eps : ℕ → ℚ) : List ℚ :=
  (List.range' 1 (T - 1)).foldl
    (fun x t => x.set t (x.getD (t - 1) 0 + sigma * eps t))
    ((List.replicate T 0).set 0 start_value)

/-- One iteration `t` of the MA generation loop (lines 136-140):
`x[t] = cst + a[t]` then `for q in range(Q): if t-q-1 >= 0: x[t] -= coeffs[q] * a[t-q-1]`.
The Python guard `t-q-1 >= 0` is over `int`, hence the `(t : ℤ)` condition. -/
def MAstep (cst : ℚ) (coeffs : List ℚ) (a : ℕ → ℚ) (x : List ℚ) (t : ℕ) : List ℚ :=
  (List.range coeffs.length).foldl
    (fun x (q : ℕ) => if 0 ≤ (t : ℤ) - (q : ℤ) - 1 then
        x.set t (x.getD t 0 - coeffs.getD q 0 * a (t - q - 1))
      else x)
    (x.set t (cst + a t))

/-- The MA series construction (lines 135-140): `x = [0.]*T` then the loop
runs for every `t in range(T)`. -/
def MAbuild (T : ℕ) (cst : ℚ) (coeffs : List ℚ) (a : ℕ → ℚ) : List ℚ :=
  (List.range T).foldl (fun x t => MAstep cst coeffs a x t) (List.replicate T 0)

/-- `MovingAverage` (lines 112-154).  The `assert` becomes a
`parameterMismatch` error; the theoretical-variance computation (lines
143-149) involves no division and cannot fail. -/
def MovingAverage (T : ℕ) (cst : ℚ) (order : ℕ) (coeffs : List ℚ)
    (sigma : ℚ) (eps : ℕ → ℚ) : Except SimError (List ℚ) :=
  if coeffs.length = order then
    Except.ok (MAbuild T cst coeffs (fun t => sigma * eps t))
  else Except.error SimError.parameterMismatch

/-- One iteration `t` of the ARMA generation loop (lines 186-192):
`x[t] = cst + a[t]`; `for p in range(P): x[t] += ARcoeffs[p] * x[t-p]`
(note `x[t-p]`, which for `p = 0` reads back the cell being written);
`for q in range(Q): if t-q-1 >= 0: x[t] -= MAcoeffs[q] * x[t-q-1]`
(note the MA sum reads past series values `x`, not the noise). -/
def ARMAstep (cst : ℚ) (ARcoeffs MAcoeffs : List ℚ) (a : ℕ → ℚ)
    (x : List ℚ) (t : ℕ) : List ℚ :=
  (List.range MAcoeffs.length).foldl
    (fun x (q : ℕ) => if 0 ≤ (t : ℤ) - (q : ℤ) - 1 then
        x.set t (x.getD t 0 - MAcoeffs.getD q 0 * x.getD (t - q - 1) 0)
      else x)
    ((List.range ARcoeffs.length).foldl
      (fun x p => x.set t (x.getD t 0 + ARcoeffs.getD p 0 * x.getD (t - p) 0))
      (x.set t (cst + a t)))

/-- The ARMA series construction (lines 181-192): `x = [0.]*T`, seed the first
`P = ARorder` cells from `start_values`, then the loop for `t in range(P, T)`. -/
def ARMAbuild (T P : ℕ) (start_values : List ℚ) (cst : ℚ)
    (ARcoeffs MAcoeffs : List ℚ) (a : ℕ → ℚ) : List ℚ :=
  (List.range' P (T - P)).foldl
    (fun x t => ARMAstep cst ARcoeffs MAcoeffs a x t)
    ((List.range P).foldl (fun x t => x.set t (start_values.getD t 0))
      (List.replicate T 0))

/-- `ARMA` (lines 158-197).  The three `assert` statements become
`parameterMismatch` errors; nothing else in the function can fail. -/
def ARMA (T : ℕ) (start_values : List ℚ) (cst : ℚ) (ARorder : ℕ)
    (ARcoeffs : List ℚ) (MAorder : ℕ) (MAcoeffs : List ℚ)
    (sigma : ℚ) (eps : ℕ → ℚ) : Except SimError (List ℚ) :=
  if ARcoeffs.length = ARorder then
    if MAcoeffs.length = MAorder then
      if start_values.length = ARorder then
        Except.ok (ARMAbuild T ARorder start_values cst ARcoeffs MAcoeffs
          (fun t => sigma * eps t))
      else Except.error SimError.parameterMismatch
    else Except.error SimError.parameterMismatch
  else Except.error SimError.parameterMismatch

/-! ### marketdata/simuldata.py -/

/-- Elementwise running product down the rows, continuing from an accumulator
row: models the tail of `pd.DataFrame.cumprod()` (axis 0). -/
def cumprodAux (acc : List ℚ) : List (List ℚ) → List (List ℚ)
  | [] => []
  | r :: rs =>
    let acc2 := List.zipWith (fun u v => u * v) acc r
    acc2 :: cumprodAux acc2 rs

/-- `pd.DataFrame.cumprod()` along axis 0: the first row is unchanged and each
later row is the elementwise product of the previous accumulated row with it. -/
def cumprodRows : List (List ℚ) → List (List ℚ)
  | [] => []
  | r :: rs => r :: cumprodAux r rs

/-- `create_market` (lines 15-30).  `noise i j` stands for the draw
`np.random.normal(loc=(1+drift)**dt, scale=sigma*sqrt(dt))` at row `i`,
column `j`; the drift and sigma parameters enter only through it.
`n_steps = int(n_years * steps_per_year) + 1` (for the valid domain
`0 ≤ n_years` Python's `int` truncation is the floor).  Row 0 of the return
matrix is overwritten with ones (`rets_plus_1[0] = 1`) before
`r_ini * cumprod`. -/
def create_market (r_ini : ℚ) (n_years : ℚ) (steps_per_year : ℕ)
    (n_scenarios : ℕ) (noise : ℕ → ℕ → ℚ) : List (List ℚ) :=
  let n_steps := (n_years * steps_per_year).floor.toNat + 1
  let raw := (List.range n_steps).map
    (fun i => (List.range n_scenarios).map (fun j => noise i j))
  let rets_plus_1 := raw.set 0 (List.replicate n_scenarios 1)
  (cumprodRows rets_plus_1).map (fun row => row.map (fun v => r_ini * v))

/-- `set_market_names` (lines 34-81), restricted to its observable result:
the generated asset column names and the row-date series (dates as integer
day numbers, `timedelta`/`to_timedelta` arithmetic in days).
`int(365./12.) = 30` and `int(Nticks * (365./12.)) = floor(Nticks * 365/12)`.
In the branch where `date_type` is neither `"start"` nor `"end"` the code
evaluates `ValueError("date_type choice is not recognized.")` WITHOUT raising
it, so `date_series` is never assigned and the subsequent
`date_series.to_period(interval_type)` raises `UnboundLocalError`: this is
modelled by `date_series = none` leading to `SimError.unboundLocal`. -/
def set_market_names (Nticks Nassets : ℕ) (date : ℤ)
    (date_type : String) (interval_type : String) :
    Except SimError (List String × List ℤ) :=
  let columns := (List.range Nassets).map (fun j => "Asset " ++ toString j)
  let date_series : Option (List ℤ) :=
    if date_type = "start" then
      if interval_type = "D" then
        some ((List.range Nticks).map (fun i => date + i))
      else if interval_type = "M" then
        some ((List.range Nticks).map (fun i => date + i * 12))
      else if interval_type = "Y" then
        some ((List.range Nticks).map (fun i => date + i * 365))
      else none
    else if date_type = "end" then
      if interval_type = "D" then
        some ((List.range Nticks).map (fun i => date - Nticks + i))
      else if interval_type = "M" then
        some ((List.range Nticks).map
          (fun i => date - ((Nticks : ℚ) * (365 / 12)).floor + i * 30))
      else if interval_type = "Y" then
        some ((List.range Nticks).map (fun i => date - Nticks * 365 + i * 365))
      else none
    else
      none
  match date_series with
  | some ds => Except.ok (columns, ds)
  | none => Except.error SimError.unboundLocal

/-- `create_market_shares` (lines 85-104).  `draws i` stands for the already
`int`-truncated sample `int(np.random.normal(loc=mean, scale=stdv, size=1))`
for asset `i`.  The guard mirrors `if market_shares.min() < 0: raise ...`
(for an empty series the pandas min is NaN and the comparison is false, like
`List.any` on `[]`). -/
def create_market_shares (Nassets : ℕ) (draws : ℕ → ℤ) :
    Except SimError (List ℤ) :=
  let market_shares := (List.range Nassets).map (fun i => draws i)
  if market_shares.any (fun v => decide (v < 0)) then
    Except.error SimError.negativeShareCount
  else Except.ok market_shares

/-! ### Generic lemmas about the in-place list updates -/

lemma getD_set_self (x : List ℚ) (t : ℕ) (v : ℚ) (h : t < x.length) :
    (x.set t v).getD t 0 = v := by
  simp [List.getD_eq_getElem?_getD, List.getElem?_set_eq_of_lt v h]

lemma getD_set_ne (x : List ℚ) (t s : ℕ) (v : ℚ) (h : s ≠ t) :
    (x.set t v).getD s 0 = x.getD s 0 := by
  simp [List.getD_eq_getElem?_getD, List.getElem?_set_ne (Ne.symm h)]

lemma foldl_len {α : Type} (f : List ℚ → α → List ℚ)
    (hf : ∀ x p, (f x p).length = x.length) :
    ∀ (l : List α) (x : List ℚ), (l.foldl f x).length = x.length := by
  intro l
  induction l with
  | nil => intro x; rfl
  | cons p l ih => intro x; rw [List.foldl_cons, ih, hf]

lemma foldl_frame {α : Type} (t : ℕ) (f : List ℚ → α → List ℚ)
    (hf : ∀ x p s, s ≠ t → (f x p).getD s 0 = x.getD s 0) :
    ∀ (l : List α) (x : List ℚ) (s : ℕ), s ≠ t →
      (l.foldl f x).getD s 0 = x.getD s 0 := by
  intro l
  induction l with
  | nil => intro x s _; rfl
  | cons p l ih => intro x s hs; rw [List.foldl_cons, ih _ _ hs, hf _ _ _ hs]

/-- Value of cell `t` after a fold of read-modify-write additions
`x[t] += F p * x[r p]`, when no read aliases the written cell. -/
lemma foldl_add_body (t : ℕ) (F : ℕ → ℚ) (r : ℕ → ℕ) :
    ∀ (l : List ℕ) (x : List ℚ), t < x.length → (∀ p ∈ l, r p ≠ t) →
      (l.foldl (fun x p => x.set t (x.getD t 0 + F p * x.getD (r p) 0)) x).getD t 0
        = x.getD t 0 + (l.map (fun p => F p * x.getD (r p) 0)).sum := by
  intro l
  induction l with
  | nil => intro x _ _; simp
  | cons p l ih =>
    intro x ht hr
    rw [List.foldl_cons]
    have hlen : (x.set t (x.getD t 0 + F p * x.getD (r p) 0)).length = x.length :=
      List.length_set ..
    rw [ih _ (by rw [hlen]; exact ht) (fun p' hp' => hr p' (List.mem_cons_of_mem _ hp'))]
    rw [getD_set_self _ _ _ ht]
    have hmap : l.map (fun p' => F p' *
          (x.set t (x.getD t 0 + F p * x.getD (r p) 0)).getD (r p') 0)
        = l.map (fun p' => F p' * x.getD (r p') 0) := by
      apply List.map_congr_left
      intro p' hp'
      rw [getD_set_ne _ _ _ _ (hr p' (List.mem_cons_of_mem _ hp'))]
    rw [hmap, List.map_cons, List.sum_cons, add_assoc]

/-- Value of cell `t` after a fold of guarded read-modify-write subtractions
`if t-q-1 >= 0: x[t] -= F q * x[r q]`, when no enabled read aliases cell `t`. -/
lemma foldl_subIf_body (t : ℕ) (F : ℕ → ℚ) (r : ℕ → ℕ)
    (hr : ∀ (q : ℕ), 0 ≤ (t : ℤ) - (q : ℤ) - 1 → r q ≠ t) :
    ∀ (l : List ℕ) (x : List ℚ), t < x.length →
      (l.foldl (fun x (q : ℕ) => if 0 ≤ (t : ℤ) - (q : ℤ) - 1 then
          x.set t (x.getD t 0 - F q * x.getD (r q) 0) else x) x).getD t 0
        = x.getD t 0 - (l.map (fun (q : ℕ) => if 0 ≤ (t : ℤ) - (q : ℤ) - 1 then
            F q * x.getD (r q) 0 else 0)).sum := by
  intro l
  induction l with
  | nil => intro x _; simp
  | cons q l ih =>
    intro x ht
    rw [List.foldl_cons, List.map_cons, List.sum_cons]
    by_cases hg : 0 ≤ (t : ℤ) - (q : ℤ) - 1
    · rw [if_pos hg, if_pos hg]
      have hlen : (x.set t (x.getD t 0 - F q * x.getD (r q) 0)).length = x.length :=
        List.length_set ..
      rw [ih _ (by rw [hlen]; exact ht)]
      rw [getD_set_self _ _ _ ht]
      have hmap : l.map (fun (q' : ℕ) => if 0 ≤ (t : ℤ) - (q' : ℤ) - 1 then
            F q' * (x.set t (x.getD t 0 - F q * x.getD (r q) 0)).getD (r q') 0 else 0)
          = l.map (fun (q' : ℕ) => if 0 ≤ (t : ℤ) - (q' : ℤ) - 1 then
            F q' * x.getD (r q') 0 else 0) := by
        apply List.map_congr_left
        intro q' _
        by_cases hg' : 0 ≤ (t : ℤ) - (q' : ℤ) - 1
        · rw [if_pos hg', if_pos hg', getD_set_ne _ _ _ _ (hr q' hg')]
        · rw [if_neg hg', if_neg hg']
      rw [hmap, sub_sub]
    · rw [if_neg hg, if_neg hg, ih _ ht, zero_add]

/-- Value of cell `t` after a fold of guarded subtractions of terms that do
not read the series list: `if t-q-1 >= 0: x[t] -= G q`. -/
lemma foldl_subIf_const_body (t : ℕ) (G : ℕ → ℚ) :
    ∀ (l : List ℕ) (x : List ℚ), t < x.length →
      (l.foldl (fun x (q : ℕ) => if 0 ≤ (t : ℤ) - (q : ℤ) - 1 then
          x.set t (x.getD t 0 - G q) else x) x).getD t 0
        = x.getD t 0 - (l.map (fun (q : ℕ) => if 0 ≤ (t : ℤ) - (q : ℤ) - 1 then
            G q else 0)).sum := by
  intro l
  induction l with
  | nil => intro x _; simp
  | cons q l ih =>
    intro x ht
    rw [List.foldl_cons, List.map_cons, List.sum_cons]
    by_cases hg : 0 ≤ (t : ℤ) - (q : ℤ) - 1
    · rw [if_pos hg, if_pos hg]
      have hlen : (x.set t (x.getD t 0 - G q)).length = x.length := List.length_set ..
      rw [ih _ (by rw [hlen]; exact ht), getD_set_self _ _ _ ht, sub_sub]
    · rw [if_neg hg, if_neg hg, ih _ ht, zero_add]

/-! ### Step-level lemmas -/

lemma ARstep_length (cst : ℚ) (coeffs : List ℚ) (a : ℕ → ℚ) (x : List ℚ) (t : ℕ) :
    (ARstep cst coeffs a x t).length = x.length := by
  unfold ARstep
  rw [foldl_len _ (fun x p => List.length_set ..), List.length_set]

lemma ARstep_frame (cst : ℚ) (coeffs : List ℚ) (a : ℕ → ℚ) (x : List ℚ) (t s : ℕ)
    (hs : s ≠ t) : (ARstep cst coeffs a x t).getD s 0 = x.getD s 0 := by
  unfold ARstep
  rw [foldl_frame t _ (fun x p s hs => getD_set_ne _ _ _ _ hs) _ _ _ hs,
    getD_set_ne _ _ _ _ hs]

lemma ARstep_value (cst : ℚ) (coeffs : List ℚ) (a : ℕ → ℚ) (x : List ℚ) (t : ℕ)
    (ht : t < x.length) (hlo : coeffs.length ≤ t) :
    (ARstep cst coeffs a x t).getD t 0
      = cst + a t + ((List.range coeffs.length).map
          (fun p => coeffs.getD p 0 * x.getD (t - p - 1) 0)).sum := by
  unfold ARstep
  have hr : ∀ p ∈ List.range coeffs.length, t - p - 1 ≠ t := by
    intro p hp
    have := List.mem_range.mp hp
    omega
  rw [foldl_add_body t (fun p => coeffs.getD p 0) (fun p => t - p - 1) _ _
    (by rw [List.length_set]; exact ht) hr]
  rw [getD_set_self _ _ _ ht]
  congr 1
  congr 1
  apply List.map_congr_left
  intro p hp
  rw [getD_set_ne _ _ _ _ (hr p hp)]

lemma MAstep_length (cst : ℚ) (coeffs : List ℚ) (a : ℕ → ℚ) (x : List ℚ) (t : ℕ) :
    (MAstep cst coeffs a x t).length = x.length := by
  unfold MAstep
  rw [foldl_len, List.length_set]
  intro x q
  dsimp only
  split
  · rw [List.length_set]
  · rfl

lemma MAstep_frame (cst : ℚ) (coeffs : List ℚ) (a : ℕ → ℚ) (x : List ℚ) (t s : ℕ)
    (hs : s ≠ t) : (MAstep cst coeffs a x t).getD s 0 = x.getD s 0 := by
  unfold MAstep
  rw [foldl_frame t _ ?hf _ _ _ hs, getD_set_ne _ _ _ _ hs]
  intro x q s hs
  dsimp only
  split
  · rw [getD_set_ne _ _ _ _ hs]
  · rfl

lemma MAstep_value (cst : ℚ) (coeffs : List ℚ) (a : ℕ → ℚ) (x : List ℚ) (t : ℕ)
    (ht : t < x.length) :
    (MAstep cst coeffs a x t).getD t 0
      = cst + a t - ((List.range coeffs.length).map
          (fun (q : ℕ) => if 0 ≤ (t : ℤ) - (q : ℤ) - 1 then
            coeffs.getD q 0 * a (t - q - 1) else 0)).sum := by
  unfold MAstep
  rw [foldl_subIf_const_body t (fun q => coeffs.getD q 0 * a (t - q - 1)) _ _
    (by rw [List.length_set]; exact ht)]
  rw [getD_set_self _ _ _ ht]

lemma ARMAstep_length (cst : ℚ) (ARcoeffs MAcoeffs : List ℚ) (a : ℕ → ℚ)
    (x : List ℚ) (t : ℕ) :
    (ARMAstep cst ARcoeffs MAcoeffs a x t).length = x.length := by
  unfold ARMAstep
  rw [foldl_len _ ?hf2, foldl_len _ (fun x p => List.length_set ..), List.length_set]
  intro x q
  dsimp only
  split
  · rw [List.length_set]
  · rfl

lemma ARMAstep_frame (cst : ℚ) (ARcoeffs MAcoeffs : List ℚ) (a : ℕ → ℚ)
    (x : List ℚ) (t s : ℕ) (hs : s ≠ t) :
    (ARMAstep cst ARcoeffs MAcoeffs a x t).getD s 0 = x.getD s 0 := by
  unfold ARMAstep
  rw [foldl_frame t _ ?hf2 _ _ _ hs,
    foldl_frame t _ (fun x p s hs => getD_set_ne _ _ _ _ hs) _ _ _ hs,
    getD_set_ne _ _ _ _ hs]
  intro x q s hs
  dsimp only
  split
  · rw [getD_set_ne _ _ _ _ hs]
  · rfl

/-- What one ARMA loop iteration actually assigns to `x[t]` (for `t` at least
the AR order, so that no AR read other than `p = 0` aliases the written cell,
and `t` within bounds).  Since Python evaluates `x[t] += ARcoeffs[p]*x[t-p]`
sequentially, at `p = 0` the read `x[t-0]` returns the partial accumulator
`cst + a[t]`, giving the factor `1 + ARcoeffs[0]`; for `p ≥ 1` it reads the
already-final past values, and the MA loop subtracts past series values. -/
def armaVal (cst : ℚ) (ARcoeffs MAcoeffs : List ℚ) (a : ℕ → ℚ) (t : ℕ)
    (f : ℕ → ℚ) : ℚ :=
  (1 + ARcoeffs.getD 0 0) * (cst + a t)
  + ((List.range (ARcoeffs.length - 1)).map
      (fun i => ARcoeffs.getD (i + 1) 0 * f (t - (i + 1)))).sum
  - ((List.range MAcoeffs.length).map
      (fun (q : ℕ) => if 0 ≤ (t : ℤ) - (q : ℤ) - 1 then
        MAcoeffs.getD q 0 * f (t - q - 1) else 0)).sum

lemma ARMA_ARfold_value (ARc : List ℚ) (t : ℕ) (v : ℚ) (x : List ℚ)
    (ht : t < x.length) (hlo : ARc.length ≤ t) :
    ((List.range ARc.length).foldl
        (fun y p => y.set t (y.getD t 0 + ARc.getD p 0 * y.getD (t - p) 0))
        (x.set t v)).getD t 0
      = (1 + ARc.getD 0 0) * v
        + ((List.range (ARc.length - 1)).map
            (fun i => ARc.getD (i + 1) 0 * x.getD (t - (i + 1)) 0)).sum := by
  rcases hL : ARc.length with _ | L
  · have hnil : ARc = [] := List.length_eq_zero.mp hL
    simp [hnil]
    rw [List.getElem?_set_eq_of_lt v ht]
    rfl
  · rw [Nat.add_sub_cancel, List.range_succ_eq_map, List.foldl_cons, List.foldl_map]
    have ht1 : 1 ≤ t := by omega
    have hr : ∀ p ∈ List.range L, t - Nat.succ p ≠ t := by
      intro p hp; omega
    have hv : (x.set t v).getD t 0 = v := getD_set_self _ _ _ ht
    have ht' : t < ((x.set t v).set t
        ((x.set t v).getD t 0 + ARc.getD 0 0 * (x.set t v).getD (t - 0) 0)).length := by
      rw [List.length_set, List.length_set]; exact ht
    rw [foldl_add_body t (fun p => ARc.getD (Nat.succ p) 0)
      (fun p => t - Nat.succ p) _ _ ht' hr]
    rw [Nat.sub_zero, hv, getD_set_self _ _ _ (by rw [List.length_set]; exact ht)]
    have hmap : (List.range L).map (fun p => ARc.getD (Nat.succ p) 0 *
          ((x.set t v).set t (v + ARc.getD 0 0 * v)).getD (t - Nat.succ p) 0)
        = (List.range L).map
          (fun i => ARc.getD (i + 1) 0 * x.getD (t - (i + 1)) 0) := by
      apply List.map_congr_left
      intro p hp
      rw [getD_set_ne _ _ _ _ (hr p hp), getD_set_ne _ _ _ _ (hr p hp)]
    rw [hmap]
    ring

lemma ARMAstep_value (cst : ℚ) (ARc MAc : List ℚ) (a : ℕ → ℚ) (x : List ℚ)
    (t : ℕ) (ht : t < x.length) (hlo : ARc.length ≤ t) :
    (ARMAstep cst ARc MAc a x t).getD t 0
      = armaVal cst ARc MAc a t (fun s => x.getD s 0) := by
  unfold ARMAstep armaVal
  have hlen2 : ((List.range ARc.length).foldl
      (fun y p => y.set t (y.getD t 0 + ARc.getD p 0 * y.getD (t - p) 0))
      (x.set t (cst + a t))).length = x.length := by
    rw [foldl_len _ (fun x p => List.length_set ..), List.length_set]
  have hframe2 : ∀ s, s ≠ t → ((List.range ARc.length).foldl
      (fun y p => y.set t (y.getD t 0 + ARc.getD p 0 * y.getD (t - p) 0))
      (x.set t (cst + a t))).getD s 0 = x.getD s 0 := by
    intro s hs
    rw [foldl_frame t _ (fun x p s hs => getD_set_ne _ _ _ _ hs) _ _ _ hs,
      getD_set_ne _ _ _ _ hs]
  have hrMA : ∀ (q : ℕ), 0 ≤ (t : ℤ) - (q : ℤ) - 1 → t - q - 1 ≠ t := by
    intro q hq; omega
  rw [foldl_subIf_body t (fun q => MAc.getD q 0) (fun q => t - q - 1) hrMA _ _
    (by rw [hlen2]; exact ht)]
  rw [ARMA_ARfold_value ARc t (cst + a t) x ht hlo]
  congr 1
  congr 1
  apply List.map_congr_left
  intro q _
  by_cases hg : 0 ≤ (t : ℤ) - (q : ℤ) - 1
  · rw [if_pos hg, if_pos hg, hframe2 _ (hrMA q hg)]
  · rw [if_neg hg, if_neg hg]

/-! ### The initial segment and the outer generation loop -/

lemma initFold_length (P T : ℕ) (sv : List ℚ) :
    ((List.range P).foldl (fun x i => x.set i (sv.getD i 0))
      (List.replicate T 0)).length = T := by
  rw [foldl_len _ (fun x i => List.length_set ..), List.length_replicate]

lemma initFold_getD (P T : ℕ) (sv : List ℚ) (t : ℕ) (htP : t < P) (htT : t < T) :
    ((List.range P).foldl (fun x i => x.set i (sv.getD i 0))
      (List.replicate T 0)).getD t 0 = sv.getD t 0 := by
  induction P with
  | zero => omega
  | succ P ih =>
    rw [List.range_succ, List.foldl_append, List.foldl_cons, List.foldl_nil]
    by_cases h : t = P
    · subst h
      exact getD_set_self _ _ _ (by rw [initFold_length]; exact htT)
    · rw [getD_set_ne _ _ _ _ h]
      exact ih (by omega)

/-- Invariant of the per-index generation loop `for t in range(P, T)`: a step
function that writes only cell `t`, whose written value is a function `Φ` of
the strictly earlier cells, leaves cells below `P` untouched and makes every
visited cell satisfy the recursion `x[t] = Φ t x` in the final list. -/
theorem buildLoop_spec (step : List ℚ → ℕ → List ℚ) (Φ : ℕ → (ℕ → ℚ) → ℚ)
    (lo : ℕ)
    (hlen : ∀ x t, (step x t).length = x.length)
    (hframe : ∀ x t s, s ≠ t → (step x t).getD s 0 = x.getD s 0)
    (hval : ∀ x t, lo ≤ t → t < x.length →
      (step x t).getD t 0 = Φ t (fun s => x.getD s 0))
    (hloc : ∀ t f g, lo ≤ t → (∀ s, s < t → f s = g s) → Φ t f = Φ t g) :
    ∀ (n P : ℕ) (x0 : List ℚ), lo ≤ P → P + n ≤ x0.length →
      (∀ s, s < P → ((List.range' P n).foldl step x0).getD s 0 = x0.getD s 0)
      ∧ (∀ t, P ≤ t → t < P + n →
          ((List.range' P n).foldl step x0).getD t 0
            = Φ t (fun s => ((List.range' P n).foldl step x0).getD s 0)) := by
  intro n
  induction n with
  | zero =>
    intro P x0 _ _
    refine ⟨fun s _ => rfl, fun t h1 h2 => absurd h2 (by omega)⟩
  | succ n ih =>
    intro P x0 hloP hlen0
    rw [List.range'_succ, List.foldl_cons]
    have hx1len : (step x0 P).length = x0.length := hlen x0 P
    obtain ⟨ih1, ih2⟩ := ih (P + 1) (step x0 P) (by omega) (by rw [hx1len]; omega)
    have hfinal0 : ∀ s, s < P →
        ((List.range' (P + 1) n).foldl step (step x0 P)).getD s 0 = x0.getD s 0 := by
      intro s hs
      rw [ih1 s (by omega), hframe x0 P s (by omega)]
    refine ⟨hfinal0, ?_⟩
    intro t h1 h2
    rcases eq_or_lt_of_le h1 with rfl | hlt
    · rw [ih1 P (by omega), hval x0 P hloP (by omega)]
      apply hloc P _ _ hloP
      intro s hs
      rw [hfinal0 s hs]
    · exact ih2 t (by omega) (by omega)

/-! ### Per-generator recursion characterisations -/

lemma ARbuild_spec (T : ℕ) (sv : List ℚ) (cst : ℚ) (coeffs : List ℚ)
    (a : ℕ → ℚ) (hc : coeffs.length = sv.length) (hT : sv.length ≤ T) :
    (∀ t, t < sv.length → (ARbuild T sv cst coeffs a).getD t 0 = sv.getD t 0)
    ∧ (∀ t, sv.length ≤ t → t < T →
        (ARbuild T sv cst coeffs a).getD t 0
          = cst + a t + ((List.range coeffs.length).map
              (fun p => coeffs.getD p 0
                * (ARbuild T sv cst coeffs a).getD (t - p - 1) 0)).sum) := by
  obtain ⟨h1, h2⟩ := buildLoop_spec (fun x t => ARstep cst coeffs a x t)
    (fun t f => cst + a t + ((List.range coeffs.length).map
      (fun p => coeffs.getD p 0 * f (t - p - 1))).sum)
    sv.length
    (fun x t => ARstep_length ..)
    (fun x t s hs => ARstep_frame cst coeffs a x t s hs)
    (fun x t hlo ht => ARstep_value cst coeffs a x t ht (hc ▸ hlo))
    (by
      intro t f g hlo hfg
      dsimp only
      have hmap : (List.range coeffs.length).map
            (fun p => coeffs.getD p 0 * f (t - p - 1))
          = (List.range coeffs.length).map
            (fun p => coeffs.getD p 0 * g (t - p - 1)) := by
        apply List.map_congr_left
        intro p hp
        have hp' : p < coeffs.length := List.mem_range.mp hp
        rw [hfg (t - p - 1) (by omega)]
      rw [hmap])
    (T - sv.length) sv.length
    ((List.range sv.length).foldl (fun x i => x.set i (sv.getD i 0))
      (List.replicate T 0))
    le_rfl
    (by rw [initFold_length]; omega)
  constructor
  · intro t htP
    exact (h1 t htP).trans (initFold_getD _ _ _ _ htP (by omega))
  · intro t h1t h2t
    exact h2 t h1t (by omega)

lemma ARMAbuild_spec (T P : ℕ) (sv : List ℚ) (cst : ℚ) (ARc MAc : List ℚ)
    (a : ℕ → ℚ) (hAR : ARc.length = P) (hsv : sv.length = P) (hT : P ≤ T) :
    (∀ t, t < P → (ARMAbuild T P sv cst ARc MAc a).getD t 0 = sv.getD t 0)
    ∧ (∀ t, P ≤ t → t < T →
        (ARMAbuild T P sv cst ARc MAc a).getD t 0
          = armaVal cst ARc MAc a t
              (fun s => (ARMAbuild T P sv cst ARc MAc a).getD s 0)) := by
  obtain ⟨h1, h2⟩ := buildLoop_spec (fun x t => ARMAstep cst ARc MAc a x t)
    (armaVal cst ARc MAc a) P
    (fun x t => ARMAstep_length ..)
    (fun x t s hs => ARMAstep_frame cst ARc MAc a x t s hs)
    (fun x t hlo ht => ARMAstep_value cst ARc MAc a x t ht (hAR ▸ hlo))
    (by
      intro t f g hlo hfg
      unfold armaVal
      have hmapAR : (List.range (ARc.length - 1)).map
            (fun i => ARc.getD (i + 1) 0 * f (t - (i + 1)))
          = (List.range (ARc.length - 1)).map
            (fun i => ARc.getD (i + 1) 0 * g (t - (i + 1))) := by
        apply List.map_congr_left
        intro i hi
        have hi' : i < ARc.length - 1 := List.mem_range.mp hi
        rw [hfg (t - (i + 1)) (by omega)]
      have hmapMA : (List.range MAc.length).map
            (fun (q : ℕ) => if 0 ≤ (t : ℤ) - (q : ℤ) - 1 then
              MAc.getD q 0 * f (t - q - 1) else 0)
          = (List.range MAc.length).map
            (fun (q : ℕ) => if 0 ≤ (t : ℤ) - (q : ℤ) - 1 then
              MAc.getD q 0 * g (t - q - 1) else 0) := by
        apply List.map_congr_left
        intro q _
        by_cases hg : 0 ≤ (t : ℤ) - (q : ℤ) - 1
        · rw [if_pos hg, if_pos hg, hfg (t - q - 1) (by omega)]
        · rw [if_neg hg, if_neg hg]
      rw [hmapAR, hmapMA])
    (T - P) P
    ((List.range P).foldl (fun x i => x.set i (sv.getD i 0))
      (List.replicate T 0))
    le_rfl
    (by rw [initFold_length]; omega)
  constructor
  · intro t htP
    exact (h1 t htP).trans (initFold_getD _ _ _ _ htP (by omega))
  · intro t h1t h2t
    exact h2 t h1t (by omega)

lemma MAbuild_spec (T : ℕ) (cst : ℚ) (coeffs : List ℚ) (a : ℕ → ℚ) :
    ∀ t, t < T → (MAbuild T cst coeffs a).getD t 0
      = cst + a t - ((List.range coeffs.length).map
          (fun (q : ℕ) => if 0 ≤ (t : ℤ) - (q : ℤ) - 1 then
            coeffs.getD q 0 * a (t - q - 1) else 0)).sum := by
  have hrw : List.range T = List.range' 0 T := List.range_eq_range' T
  obtain ⟨h1, h2⟩ := buildLoop_spec (fun x t => MAstep cst coeffs a x t)
    (fun t f => cst + a t - ((List.range coeffs.length).map
      (fun (q : ℕ) => if 0 ≤ (t : ℤ) - (q : ℤ) - 1 then
        coeffs.getD q 0 * a (t - q - 1) else 0)).sum)
    0
    (fun x t => MAstep_length ..)
    (fun x t s hs => MAstep_frame cst coeffs a x t s hs)
    (fun x t _ ht => MAstep_value cst coeffs a x t ht)
    (fun t f g _ _ => rfl)
    T 0 (List.replicate T 0)
    le_rfl
    (by rw [List.length_replicate]; omega)
  intro t ht
  unfold MAbuild
  rw [hrw]
  exact h2 t (by omega) (by omega)

/-! ### Claim C2: the AR recursion -/

/-- C2: for every valid AutoRegressive(P) input (the call returns a series,
so both length asserts passed), the first P output values equal
`start_values` exactly, and for every index t with P ≤ t < T the output
satisfies `x[t] = cst + noise[t] + Σ_{p=0}^{P-1} coeffs[p] * x[t-p-1]`,
where `noise[t] = sigma * eps[t]`. -/
theorem autoRegressive_recursion (T : ℕ) (sv : List ℚ) (cst : ℚ) (order : ℕ)
    (coeffs : List ℚ) (sigma : ℚ) (eps : ℕ → ℚ) (xs : List ℚ)
    (hT : order ≤ T)
    (hok : AutoRegressive T sv cst order coeffs sigma eps = Except.ok xs) :
    (∀ t, t < order → xs.getD t 0 = sv.getD t 0)
    ∧ (∀ t, order ≤ t → t < T →
        xs.getD t 0 = cst + sigma * eps t + ((List.range order).map
          (fun p => coeffs.getD p 0 * xs.getD (t - p - 1) 0)).sum) := by
  unfold AutoRegressive at hok
  by_cases h1 : coeffs.length = order
  case neg => rw [if_neg h1] at hok; exact absurd hok (by simp)
  rw [if_pos h1] at hok
  by_cases h2 : sv.length = order
  case neg => rw [if_neg h2] at hok; exact absurd hok (by simp)
  rw [if_pos h2] at hok
  by_cases h3 : 1 - coeffs.sum = 0
  case pos => rw [if_pos h3] at hok; exact absurd hok (by simp)
  rw [if_neg h3] at hok
  obtain rfl : ARbuild T sv cst coeffs (fun t => sigma * eps t) = xs :=
    Except.ok.inj hok
  subst h1
  obtain ⟨hA, hB⟩ := ARbuild_spec T sv cst coeffs (fun t => sigma * eps t)
    h2.symm (by rw [h2]; exact hT)
  exact ⟨fun t ht => hA t (by rw [h2]; exact ht),
    fun t h1t h2t => hB t (by rw [h2]; exact h1t) h2t⟩

/-- Witness for C2 at T = 3, start_values = [1], cst = 0, order = 1,
coeffs = [1/2], sigma = 1, eps = 1: the output is [1, 3/2, 7/4]. -/
theorem autoRegressive_recursion_witness :
    (∀ t, t < 1 → ([1, 3/2, 7/4] : List ℚ).getD t 0 = ([1] : List ℚ).getD t 0)
    ∧ (∀ t, 1 ≤ t → t < 3 →
        ([1, 3/2, 7/4] : List ℚ).getD t 0 = 0 + 1 * 1 + ((List.range 1).map
          (fun p => ([1/2] : List ℚ).getD p 0
            * ([1, 3/2, 7/4] : List ℚ).getD (t - p - 1) 0)).sum) :=
  autoRegressive_recursion 3 [1] 0 1 [1/2] 1 (fun _ => 1) [1, 3/2, 7/4]
    (by omega)
    (by norm_num [AutoRegressive, ARbuild, ARstep, List.range',
      List.range_succ, List.getD, List.replicate, List.set])

/-! ### Claim C1: the ARMA recursion -/

/-- The recursion exactly as claim C1 words it: the first P outputs equal
`start_values`, and for P ≤ t < T,
`x[t] = cst + noise[t] + Σ_{p=0}^{P-1} ARcoeffs[p]*x[t-p]
      - Σ_{q=0}^{Q-1, t-q-1 ≥ 0} MAcoeffs[q]*x[t-q-1]`,
where `x[t-p]` at `p = 0` is the output value at the current index itself.
(This definition follows the claim's words, to be compared with the code.) -/
def armaClaimedRec (T P : ℕ) (sv : List ℚ) (cst : ℚ) (ARc MAc : List ℚ)
    (noise : ℕ → ℚ) (xs : List ℚ) : Prop :=
  (∀ t, t < P → xs.getD t 0 = sv.getD t 0)
  ∧ ∀ t, P ≤ t → t < T →
      xs.getD t 0 = cst + noise t
        + ((List.range ARc.length).map
            (fun p => ARc.getD p 0 * xs.getD (t - p) 0)).sum
        - ((List.range MAc.length).map
            (fun (q : ℕ) => if 0 ≤ (t : ℤ) - (q : ℤ) - 1 then
              MAc.getD q 0 * xs.getD (t - q - 1) 0 else 0)).sum

/-- C1 counterexample: for T = 2, start_values = [0], cst = 1, P = 1,
ARcoeffs = [1], Q = 0 and zero noise, the code outputs [0, 2] (the p = 0
term doubles the partial value cst + noise[1] = 1), but the claimed literal
recursion would require x[1] = 1 + 0 + 1 * x[1], i.e. 2 = 3. -/
theorem arma_literal_recursion_counterexample :
    ARMA 2 [0] 1 1 [1] 0 [] 0 (fun _ => 0) = Except.ok [0, 2]
    ∧ ¬ armaClaimedRec 2 1 [0] 1 [1] [] (fun _ => 0) [0, 2] := by
  constructor
  · norm_num [ARMA, ARMAbuild, ARMAstep, List.range',
      List.range_succ, List.getD, List.replicate, List.set]
  · intro h
    have h1 := h.2 1 le_rfl (by omega)
    norm_num [List.range_succ, List.getD] at h1

/-- C1 (amended): for every valid ARMA(P,Q) input, the first P output values
equal `start_values`, and for P ≤ t < T the output satisfies the loop's
actual assignment: `x[t] = (1 + ARcoeffs[0]) * (cst + noise[t])
+ Σ_{p=1}^{P-1} ARcoeffs[p]*x[t-p] - Σ_{q=0}^{Q-1, t-q-1≥0} MAcoeffs[q]*x[t-q-1]`
(`armaVal`): the p = 0 AR term multiplies the freshly assigned partial value
`cst + noise[t]`, not the final output value `x[t]`; the other terms are as
the claim states them. -/
theorem arma_recursion_amended (T : ℕ) (sv : List ℚ) (cst : ℚ) (P : ℕ)
    (ARc : List ℚ) (Q : ℕ) (MAc : List ℚ) (sigma : ℚ) (eps : ℕ → ℚ)
    (xs : List ℚ) (hT : P ≤ T)
    (hok : ARMA T sv cst P ARc Q MAc sigma eps = Except.ok xs) :
    (∀ t, t < P → xs.getD t 0 = sv.getD t 0)
    ∧ (∀ t, P ≤ t → t < T →
        xs.getD t 0 = armaVal cst ARc MAc (fun s => sigma * eps s) t
          (fun s => xs.getD s 0)) := by
  unfold ARMA at hok
  by_cases h1 : ARc.length = P
  case neg => rw [if_neg h1] at hok; exact absurd hok (by simp)
  rw [if_pos h1] at hok
  by_cases h2 : MAc.length = Q
  case neg => rw [if_neg h2] at hok; exact absurd hok (by simp)
  rw [if_pos h2] at hok
  by_cases h3 : sv.length = P
  case neg => rw [if_neg h3] at hok; exact absurd hok (by simp)
  rw [if_pos h3] at hok
  obtain rfl : ARMAbuild T P sv cst ARc MAc (fun t => sigma * eps t) = xs :=
    Except.ok.inj hok
  exact ARMAbuild_spec T P sv cst ARc MAc (fun t => sigma * eps t) h1 h3 hT

/-- Witness for the amended C1 at the counterexample input: the output
[0, 2] satisfies the amended recursion. -/
theorem arma_recursion_amended_witness :
    (∀ t, t < 1 → ([0, 2] : List ℚ).getD t 0 = ([0] : List ℚ).getD t 0)
    ∧ (∀ t, 1 ≤ t → t < 2 →
        ([0, 2] : List ℚ).getD t 0 = armaVal 1 [1] [] (fun _ => (0 : ℚ) * 0) t
          (fun s => ([0, 2] : List ℚ).getD s 0)) :=
  arma_recursion_amended 2 [0] 1 1 [1] 0 [] 0 (fun _ => 0) [0, 2]
    (by omega)
    (by norm_num [ARMA, ARMAbuild, ARMAstep, List.range',
      List.range_succ, List.getD, List.replicate, List.set])

/-! ### Claim C3: the MA recursion -/

/-- C3: for every valid MovingAverage(Q) input and every 0 ≤ t < T
(truncating the sum to the available lagged noise terms), the output
satisfies `x[t] = cst + noise[t] - Σ_{q=0}^{Q-1, t-q-1≥0} coeffs[q]*noise[t-q-1]`
with `noise[t] = sigma * eps[t]`; in particular with sigma = 0 the output
is constant at cst. -/
theorem movingAverage_recursion (T : ℕ) (cst : ℚ) (order : ℕ)
    (coeffs : List ℚ) (sigma : ℚ) (eps : ℕ → ℚ) (xs : List ℚ)
    (hok : MovingAverage T cst order coeffs sigma eps = Except.ok xs) :
    (∀ t, t < T → xs.getD t 0 = cst + sigma * eps t
        - ((List.range order).map
            (fun (q : ℕ) => if 0 ≤ (t : ℤ) - (q : ℤ) - 1 then
              coeffs.getD q 0 * (sigma * eps (t - q - 1)) else 0)).sum)
    ∧ (sigma = 0 → ∀ t, t < T → xs.getD t 0 = cst) := by
  unfold MovingAverage at hok
  by_cases h1 : coeffs.length = order
  case neg => rw [if_neg h1] at hok; exact absurd hok (by simp)
  rw [if_pos h1] at hok
  obtain rfl : MAbuild T cst coeffs (fun t => sigma * eps t) = xs :=
    Except.ok.inj hok
  subst h1
  have hmain := MAbuild_spec T cst coeffs (fun t => sigma * eps t)
  refine ⟨fun t ht => hmain t ht, ?_⟩
  intro hs0 t ht
  rw [hmain t ht, hs0]
  have hz : ((List.range coeffs.length).map
      (fun (q : ℕ) => if 0 ≤ (t : ℤ) - (q : ℤ) - 1 then
        coeffs.getD q 0 * ((fun t => (0 : ℚ) * eps t) (t - q - 1)) else 0)).sum
      = 0 := by
    apply List.sum_eq_zero
    intro v hv
    obtain ⟨q, _, rfl⟩ := List.mem_map.mp hv
    by_cases hg : 0 ≤ (t : ℤ) - (q : ℤ) - 1
    · rw [if_pos hg]; ring
    · rw [if_neg hg]
  rw [hz]
  ring

/-- Witness for C3 at T = 2, cst = 5, order = 1, coeffs = [2], sigma = 0,
eps = 3: the output is [5, 5]. -/
theorem movingAverage_recursion_witness :
    (∀ t, t < 2 → ([5, 5] : List ℚ).getD t 0 = 5 + 0 * 3
        - ((List.range 1).map
            (fun (q : ℕ) => if 0 ≤ (t : ℤ) - (q : ℤ) - 1 then
              ([2] : List ℚ).getD q 0 * (0 * 3) else 0)).sum)
    ∧ ((0 : ℚ) = 0 → ∀ t, t < 2 → ([5, 5] : List ℚ).getD t 0 = 5) :=
  movingAverage_recursion 2 5 1 [2] 0 (fun _ => 3) [5, 5]
    (by norm_num [MovingAverage, MAbuild, MAstep, List.range',
      List.range_succ, List.getD, List.replicate, List.set])

/-! ### Claim C5: length-invariant validation -/

/-- C5: for every AR, MA or ARMA call where a coefficient vector's length
differs from its declared order (or, for AR/ARMA, the initial-value vector's
length differs from P), the call fails with a ParameterMismatch error and
produces no output (the checks precede the series construction). -/
theorem parameterMismatch_validation :
    (∀ (T : ℕ) (sv : List ℚ) (cst : ℚ) (order : ℕ) (coeffs : List ℚ)
        (sigma : ℚ) (eps : ℕ → ℚ),
      coeffs.length ≠ order ∨ sv.length ≠ order →
      AutoRegressive T sv cst order coeffs sigma eps
        = Except.error SimError.parameterMismatch)
    ∧ (∀ (T : ℕ) (cst : ℚ) (order : ℕ) (coeffs : List ℚ) (sigma : ℚ)
        (eps : ℕ → ℚ),
      coeffs.length ≠ order →
      MovingAverage T cst order coeffs sigma eps
        = Except.error SimError.parameterMismatch)
    ∧ (∀ (T : ℕ) (sv : List ℚ) (cst : ℚ) (P : ℕ) (ARc : List ℚ) (Q : ℕ)
        (MAc : List ℚ) (sigma : ℚ) (eps : ℕ → ℚ),
      ARc.length ≠ P ∨ MAc.length ≠ Q ∨ sv.length ≠ P →
      ARMA T sv cst P ARc Q MAc sigma eps
        = Except.error SimError.parameterMismatch) := by
  refine ⟨?_, ?_, ?_⟩
  · intro T sv cst order coeffs sigma eps h
    unfold AutoRegressive
    rcases h with h | h
    · rw [if_neg h]
    · split_ifs <;> first | rfl | contradiction
  · intro T cst order coeffs sigma eps h
    unfold MovingAverage
    rw [if_neg h]
  · intro T sv cst P ARc Q MAc sigma eps h
    unfold ARMA
    rcases h with h | h | h <;> split_ifs <;> first | rfl | contradiction

/-- Witness for C5: an AR call with a 2-element coefficient list declared as
order 1, an MA call with an empty coefficient list declared as order 1, and
an ARMA call whose start_values length differs from P, all error out. -/
theorem parameterMismatch_validation_witness :
    AutoRegressive 2 [1] 0 1 [1, 2] 0 (fun _ => 0)
      = Except.error SimError.parameterMismatch
    ∧ MovingAverage 2 0 1 [] 0 (fun _ => 0)
      = Except.error SimError.parameterMismatch
    ∧ ARMA 2 [1, 2] 0 1 [1] 0 [] 0 (fun _ => 0)
      = Except.error SimError.parameterMismatch :=
  ⟨parameterMismatch_validation.1 2 [1] 0 1 [1, 2] 0 (fun _ => 0)
      (Or.inl (by norm_num)),
    parameterMismatch_validation.2.1 2 0 1 [] 0 (fun _ => 0) (by norm_num),
    parameterMismatch_validation.2.2 2 [1, 2] 0 1 [1] 0 [] 0 (fun _ => 0)
      (Or.inr (Or.inr (by norm_num)))⟩

/-! ### Claim C9: the undefined stationary mean -/

/-- C9: for every AutoRegressive call passing the length checks whose
coefficient sum equals 1, the theoretical stationary mean
`E = cst / (1 - sum(coeffs))` is a division by zero; the call fails
(Python raises ZeroDivisionError at this line) instead of silently
computing and printing infinity or NaN, so the condition is surfaced. -/
theorem autoRegressive_undefined_moment (T : ℕ) (sv : List ℚ) (cst : ℚ)
    (order : ℕ) (coeffs : List ℚ) (sigma : ℚ) (eps : ℕ → ℚ)
    (h1 : coeffs.length = order) (h2 : sv.length = order)
    (hsum : coeffs.sum = 1) :
    AutoRegressive T sv cst order coeffs sigma eps
      = Except.error SimError.zeroDivisionError := by
  unfold AutoRegressive
  rw [if_pos h1, if_pos h2, if_pos (by rw [hsum]; ring)]

/-- Witness for C9: an AR(1) call with coefficient 1 (the random-walk
coefficient, summing to 1) fails with the division-by-zero error. -/
theorem autoRegressive_undefined_moment_witness :
    AutoRegressive 3 [0] 1 1 [1] 0 (fun _ => 0)
      = Except.error SimError.zeroDivisionError :=
  autoRegressive_undefined_moment 3 [0] 1 1 [1] 0 (fun _ => 0)
    (by norm_num) (by norm_num) (by norm_num)

/-! ### Claim C10: the unused noise prefix -/

lemma foldl_congr_on {α : Type} (f g : List ℚ → α → List ℚ) :
    ∀ (l : List α) (x : List ℚ), (∀ p ∈ l, ∀ y, f y p = g y p) →
      l.foldl f x = l.foldl g x := by
  intro l
  induction l with
  | nil => intro x _; rfl
  | cons p l ih =>
    intro x h
    rw [List.foldl_cons, List.foldl_cons, h p (List.mem_cons_self p l),
      ih _ (fun p' hp' => h p' (List.mem_cons_of_mem _ hp'))]

/-- C10: the AR output does not depend on the first P entries of the noise
vector (the loop starts at t = P), and the RandomWalk output does not depend
on noise index 0 (its loop starts at t = 1): agreeing draws from index P
(resp. 1) up to T give identical results. -/
theorem noise_prefix_independence :
    (∀ (T : ℕ) (sv : List ℚ) (cst : ℚ) (order : ℕ) (coeffs : List ℚ)
        (sigma : ℚ) (eps1 eps2 : ℕ → ℚ),
      (∀ t, order ≤ t → t < T → eps1 t = eps2 t) →
      AutoRegressive T sv cst order coeffs sigma eps1
        = AutoRegressive T sv cst order coeffs sigma eps2)
    ∧ (∀ (T : ℕ) (start_value : ℚ) (sigma : ℚ) (eps1 eps2 : ℕ → ℚ),
      (∀ t, 1 ≤ t → t < T → eps1 t = eps2 t) →
      RandomWalk T start_value sigma eps1
        = RandomWalk T start_value sigma eps2) := by
  constructor
  · intro T sv cst order coeffs sigma eps1 eps2 hagree
    unfold AutoRegressive
    split_ifs with hc hs hz <;> try rfl
    have hbuild : ARbuild T sv cst coeffs (fun t => sigma * eps1 t)
        = ARbuild T sv cst coeffs (fun t => sigma * eps2 t) := by
      unfold ARbuild
      apply foldl_congr_on
      intro t ht y
      have hb := List.mem_range'_1.mp ht
      have h1t : order ≤ t := by rw [← hs]; omega
      have h2t : t < T := by omega
      unfold ARstep
      dsimp only
      rw [hagree t h1t h2t]
    rw [hbuild]
  · intro T start_value sigma eps1 eps2 hagree
    unfold RandomWalk
    apply foldl_congr_on
    intro t ht y
    have hb := List.mem_range'_1.mp ht
    rw [hagree t (by omega) (by omega)]

/-- Witness for C10: two noise sources differing only at the unused indices
(index 0 for both an AR(1) and a RandomWalk over T = 2) give identical
outputs. -/
theorem noise_prefix_independence_witness :
    AutoRegressive 2 [5] 0 1 [2] 1 (fun t => (t : ℚ))
        = AutoRegressive 2 [5] 0 1 [2] 1 (fun t => if t = 0 then 99 else (t : ℚ))
    ∧ RandomWalk 2 5 1 (fun t => (t : ℚ))
        = RandomWalk 2 5 1 (fun t => if t = 0 then 99 else (t : ℚ)) :=
  ⟨noise_prefix_independence.1 2 [5] 0 1 [2] 1 (fun t => (t : ℚ))
      (fun t => if t = 0 then 99 else (t : ℚ))
      (by intro t h1 h2
          have ht : t = 1 := by omega
          subst ht
          norm_num),
    noise_prefix_independence.2 2 5 1 (fun t => (t : ℚ))
      (fun t => if t = 0 then 99 else (t : ℚ))
      (by intro t h1 h2
          have ht : t = 1 := by omega
          subst ht
          norm_num)⟩

/-! ### Claims C4 and C8: the market panel -/

lemma rat_floor_eq_int_floor (q : ℚ) : q.floor = ⌊q⌋ := rfl

lemma cumprodAux_length : ∀ (rows : List (List ℚ)) (acc : List ℚ),
    (cumprodAux acc rows).length = rows.length := by
  intro rows
  induction rows with
  | nil => intro acc; rfl
  | cons r rs ih => intro acc; simp [cumprodAux, ih]

lemma cumprodRows_length (rows : List (List ℚ)) :
    (cumprodRows rows).length = rows.length := by
  cases rows with
  | nil => rfl
  | cons r rs => simp [cumprodRows, cumprodAux_length]

lemma cumprodAux_rowlen (m : ℕ) : ∀ (rows : List (List ℚ)) (acc : List ℚ),
    acc.length = m → (∀ r ∈ rows, r.length = m) →
    ∀ r ∈ cumprodAux acc rows, r.length = m := by
  intro rows
  induction rows with
  | nil => intro acc _ _ r hr; simp [cumprodAux] at hr
  | cons r rs ih =>
    intro acc hacc hrows s hs
    rw [cumprodAux] at hs
    have hzip : (List.zipWith (fun u v => u * v) acc r).length = m := by
      rw [List.length_zipWith, hacc, hrows r (List.mem_cons_self r rs), min_self]
    rcases List.mem_cons.mp hs with rfl | hs'
    · exact hzip
    · exact ih _ hzip (fun r' hr' => hrows r' (List.mem_cons_of_mem _ hr')) s hs'

lemma cumprodRows_rowlen (m : ℕ) (rows : List (List ℚ))
    (h : ∀ r ∈ rows, r.length = m) :
    ∀ r ∈ cumprodRows rows, r.length = m := by
  cases rows with
  | nil => intro r hr; simp [cumprodRows] at hr
  | cons r rs =>
    intro s hs
    rw [cumprodRows] at hs
    rcases List.mem_cons.mp hs with rfl | hs'
    · exact h s (List.mem_cons_self s rs)
    · exact cumprodAux_rowlen m rs r (h r (List.mem_cons_self r rs))
        (fun r' hr' => h r' (List.mem_cons_of_mem _ hr')) s hs'

/-- C8: the returned market panel has exactly
`floor(n_years * steps_per_year) + 1` rows and `n_scenarios` columns
(every row has that many entries).  The hypotheses delimit the domain on
which the Python source runs at all: `dt = 1/steps_per_year` needs a nonzero
`steps_per_year` and `int(...)` agrees with the floor for `0 ≤ n_years`. -/
theorem create_market_shape (r_ini n_years : ℚ) (steps_per_year n_scenarios : ℕ)
    (noise : ℕ → ℕ → ℚ) (hy : 0 ≤ n_years) (hs : 0 < steps_per_year) :
    ((create_market r_ini n_years steps_per_year n_scenarios noise).length : ℤ)
      = ⌊n_years * (steps_per_year : ℚ)⌋ + 1
    ∧ ∀ row ∈ create_market r_ini n_years steps_per_year n_scenarios noise,
        row.length = n_scenarios := by
  have hfloor : (0 : ℤ) ≤ ⌊n_years * (steps_per_year : ℚ)⌋ :=
    Int.floor_nonneg.mpr (mul_nonneg hy (by positivity))
  constructor
  · simp only [create_market]
    rw [List.length_map, cumprodRows_length, List.length_set, List.length_map,
      List.length_range, rat_floor_eq_int_floor]
    push_cast
    rw [Int.toNat_of_nonneg hfloor]
  · intro row hrow
    simp only [create_market] at hrow
    obtain ⟨r', hr', rfl⟩ := List.mem_map.mp hrow
    rw [List.length_map]
    refine cumprodRows_rowlen n_scenarios _ ?_ r' hr'
    intro r hr
    rcases List.mem_or_eq_of_mem_set hr with hr2 | rfl
    · obtain ⟨i, _, rfl⟩ := List.mem_map.mp hr2
      rw [List.length_map, List.length_range]
    · rw [List.length_replicate]

/-- Witness for C8 at r_ini = 100, n_years = 2, steps_per_year = 3,
n_scenarios = 2. -/
theorem create_market_shape_witness :
    ((create_market 100 2 3 2 (fun i j => (i : ℚ) + j)).length : ℤ)
      = ⌊(2 : ℚ) * ((3 : ℕ) : ℚ)⌋ + 1
    ∧ ∀ row ∈ create_market 100 2 3 2 (fun i j => (i : ℚ) + j),
        row.length = 2 :=
  create_market_shape 100 2 3 2 (fun i j => (i : ℚ) + j)
    (by norm_num) (by norm_num)

/-- C4: row 0 of every scenario column of the returned market panel equals
`r_ini` exactly, for any noise (hence any drift/sigma/seed), because the
first multiplicative return of every column is forced to 1 before the
cumulative product is taken. -/
theorem create_market_row0 (r_ini n_years : ℚ) (steps_per_year n_scenarios : ℕ)
    (noise : ℕ → ℕ → ℚ) (hy : 0 ≤ n_years) (hs : 0 < steps_per_year) :
    ∀ j, j < n_scenarios →
      ((create_market r_ini n_years steps_per_year n_scenarios noise).getD 0
        []).getD j 0 = r_ini := by
  intro j hj
  simp only [create_market]
  rw [List.range_succ_eq_map, List.map_cons, List.set_cons_zero, cumprodRows,
    List.map_cons, List.map_replicate]
  have hhead : ∀ (u : List ℚ) (l : List (List ℚ)), (u :: l).getD 0 [] = u :=
    fun u l => rfl
  rw [hhead, List.getD_eq_getElem?_getD, List.getElem?_replicate, if_pos hj]
  norm_num

/-- Witness for C4 at r_ini = 7, n_years = 1, steps_per_year = 2,
n_scenarios = 2, applied at column 1. -/
theorem create_market_row0_witness :
    ((create_market 7 1 2 2 (fun i j => (i : ℚ) * j + 3)).getD 0 []).getD 1 0
      = 7 :=
  create_market_row0 7 1 2 2 (fun i j => (i : ℚ) * j + 3)
    (by norm_num) (by norm_num) 1 (by norm_num)

/-! ### Claim C6: share-count generation -/

/-- C6 counterexample: a truncated draw of exactly 0 passes the
`market_shares.min() < 0` guard, so the call returns a share count of 0,
which is not strictly positive: the conjunct "every returned value is
strictly positive" of the claim is false. -/
theorem create_market_shares_zero_counterexample :
    create_market_shares 1 (fun _ => 0) = Except.ok [0]
    ∧ ¬ (∀ v ∈ ([0] : List ℤ), 0 < v) := by
  constructor
  · rfl
  · intro h
    exact absurd (h 0 (List.mem_singleton.mpr rfl)) (by norm_num)

/-- C6 (amended): if any truncated draw is negative the call fails with the
NegativeShareCount error and returns no result; if the call returns, the
result has exactly one entry per asset column and every returned value is
non-negative (a draw of exactly 0 is accepted by the `min() < 0` guard, so
strict positivity does not hold). -/
theorem create_market_shares_spec (Nassets : ℕ) (draws : ℕ → ℤ) :
    ((∃ i, i < Nassets ∧ draws i < 0) →
      create_market_shares Nassets draws
        = Except.error SimError.negativeShareCount)
    ∧ (∀ r, create_market_shares Nassets draws = Except.ok r →
        r.length = Nassets ∧ ∀ v ∈ r, 0 ≤ v) := by
  constructor
  · intro ⟨i, hi, hneg⟩
    unfold create_market_shares
    rw [if_pos]
    rw [List.any_eq_true]
    exact ⟨draws i, List.mem_map.mpr ⟨i, List.mem_range.mpr hi, rfl⟩,
      decide_eq_true hneg⟩
  · intro r hr
    unfold create_market_shares at hr
    by_cases hneg : ((List.range Nassets).map (fun i => draws i)).any
        (fun v => decide (v < 0))
    case pos => rw [if_pos hneg] at hr; exact absurd hr (by simp)
    rw [if_neg hneg] at hr
    obtain rfl : (List.range Nassets).map (fun i => draws i) = r :=
      Except.ok.inj hr
    constructor
    · rw [List.length_map, List.length_range]
    · intro v hv
      by_contra hlt
      apply hneg
      rw [List.any_eq_true]
      exact ⟨v, hv, decide_eq_true (by omega)⟩

/-- Witness for C6 (amended): with one negative draw the call errors; with
two positive draws it returns both, each non-negative. -/
theorem create_market_shares_spec_witness :
    create_market_shares 1 (fun _ => -1)
        = Except.error SimError.negativeShareCount
    ∧ (([2, 3] : List ℤ).length = 2 ∧ ∀ v ∈ ([2, 3] : List ℤ), 0 ≤ v) :=
  ⟨(create_market_shares_spec 1 (fun _ => -1)).1 ⟨0, by omega, by norm_num⟩,
    (create_market_shares_spec 2 (fun i => (i : ℤ) + 2)).2 [2, 3] (by rfl)⟩

/-! ### Claim C7: the unrecognized date_type option -/

/-- C7: the claim says a `date_type` outside {"start", "end"} makes the call
fail with an "unrecognized option" error.  The call does fail, but not with
that error: the source builds `ValueError("date_type choice is not
recognized.")` without `raise`, discards it, and then crashes referencing
the never-assigned `date_series` (an UnboundLocalError) — the intended
unrecognized-option error is never raised. -/
theorem set_market_names_unrecognized_behavior :
    set_market_names 3 2 0 "middle" "D" = Except.error SimError.unboundLocal
    ∧ SimError.unboundLocal ≠ SimError.unrecognizedOption := by
  constructor
  · rfl
  · intro h
    exact SimError.noConfusion h

end SciFin
